import Mathlib

/-!
Verification of the VAD engine in `src/server.py` (class `AdvancedVAD`).

The development shallowly embeds the engine: machine integers and Python
floats become `ℕ`/`ℝ`, the per-connection object state becomes the
structures `HangState` (the hangover fields updated in lines 160-173) and
`VADState` (the whole mutable state of an `AdvancedVAD` instance), and
`process_frame` becomes the pure function `processFrame`.
-/

namespace VAD

/- Constants fixed in `AdvancedVAD.__init__` (src/server.py lines 37-67). -/

def sampleRate : ℕ := 16000

def frameSizeMs : ℕ := 20

def frameSizeSamples : ℕ := sampleRate * frameSizeMs / 1000

def hangoverFrames : ℕ := 12

def minSpeechFrames : ℕ := 3

def historySize : ℕ := 10

noncomputable def adaptationAlpha : ℝ := 0.95

/-- The hangover fields of the engine state: `is_voice_active`,
`hangover_counter`, `speech_frame_count` (src/server.py lines 52-54). -/
structure HangState where
  isVoiceActive : Bool
  hangoverCounter : ℕ
  speechFrameCount : ℕ
deriving DecidableEq, Repr

/-- Initial hangover state set by `__init__`: inactive, both counters zero. -/
def initHang : HangState := ⟨false, 0, 0⟩

/-- Line 158 of src/server.py: `is_speech_detected = speech_votes >= 2`. -/
def speechDetected (speechVotes : ℕ) : Bool := decide (2 ≤ speechVotes)

/-- The value of `hangover_counter` after the latch of lines 161-164 but
before the decrement of line 171: if the frame is a detected-speech frame
and the incremented `speech_frame_count` reaches `min_speech_frames`, the
counter has been latched to `hangover_frames`, otherwise it still holds its
previous value. -/
def latchedCounter (s : HangState) (d : Bool) : ℕ :=
  if d && decide (minSpeechFrames ≤ s.speechFrameCount + 1) then hangoverFrames
  else s.hangoverCounter

/-- One step of the hangover logic, src/server.py lines 160-173, driven by
`is_speech_detected`.  On a detected frame `speech_frame_count` increments
and, on reaching `min_speech_frames`, latches `hangover_counter` to
`hangover_frames`; otherwise `speech_frame_count` resets to `0`.  Then a
positive counter makes the state active and is decremented, else the state
is inactive. -/
def hangoverStep (s : HangState) (d : Bool) : HangState :=
  let newCount : ℕ := if d then s.speechFrameCount + 1 else 0
  let latched : ℕ :=
    if d && decide (minSpeechFrames ≤ newCount) then hangoverFrames
    else s.hangoverCounter
  if 0 < latched then ⟨true, latched - 1, newCount⟩ else ⟨false, latched, newCount⟩

/-- Fold the hangover logic over a list of per-frame detection votes. -/
def runHang (s : HangState) (votes : List Bool) : HangState :=
  votes.foldl hangoverStep s

/-- The stream of `is_speech` outputs (the post-update `is_voice_active`,
line 177) produced while folding the hangover logic over a vote list. -/
def hangOutputs (s : HangState) : List Bool → List Bool
  | [] => []
  | v :: vs => (hangoverStep s v).isVoiceActive :: hangOutputs (hangoverStep s v) vs

/-! Feature extraction (src/server.py lines 74-109).  `np.mean` of an empty
array is modelled by `0/0 = 0`. -/

/-- `np.mean` over a list of reals: sum divided by length. -/
noncomputable def listMean (l : List ℝ) : ℝ := l.sum / l.length

/-- `calculate_rms_energy` (lines 74-76): `np.sqrt(np.mean(audio_frame**2))`. -/
noncomputable def calculate_rms_energy (audioFrame : List ℝ) : ℝ :=
  Real.sqrt (listMean (audioFrame.map (fun x => x ^ 2)))

/-- `np.diff(np.sign(audio_frame))`: consecutive differences of the sign
sequence, element `i` being `sign x_{i+1} - sign x_i`.  `np.sign` over
floats is `Real.sign` (`-1`, `0` or `1`). -/
noncomputable def signDiffs (audioFrame : List ℝ) : List ℝ :=
  List.zipWith (fun a b => b - a) (audioFrame.map Real.sign) (audioFrame.map Real.sign).tail

/-- `calculate_zero_crossing_rate` (lines 78-81):
`np.sum(np.abs(np.diff(np.sign(audio_frame)))) / len(audio_frame)`. -/
noncomputable def calculate_zero_crossing_rate (audioFrame : List ℝ) : ℝ :=
  ((signDiffs audioFrame).map (fun d => |d|)).sum / audioFrame.length

/-- `scipy.signal.windows.hann(M)` (symmetric Hann window):
`[1]` for `M = 1`, otherwise `0.5 - 0.5*cos(2*pi*n/(M-1))` for `n < M`. -/
noncomputable def hann (M : ℕ) : List ℝ :=
  if M = 1 then [1]
  else (List.range M).map (fun n => 1 / 2 - 1 / 2 * Real.cos (2 * Real.pi * n / ((M : ℝ) - 1)))

/-- `np.fft.fft`: the discrete Fourier transform of a real vector,
`X_j = sum_k x_k * exp(-2*pi*I*j*k/N)`. -/
noncomputable def dft (x : List ℝ) : List ℂ :=
  (List.range x.length).map (fun j =>
    ∑ k in Finset.range x.length,
      (x.getD k 0 : ℂ) * Complex.exp (-(2 * Real.pi * Complex.I * j * k) / (x.length : ℂ)))

/-- Lines 89-94 of `calculate_spectral_flatness`: window the frame with a
Hann window of its own length, take the DFT, and keep the magnitudes of the
first half of the spectrum (`np.abs(fft[:len(fft)//2])`). -/
noncomputable def halfSpectrumMagnitudes (audioFrame : List ℝ) : List ℝ :=
  let windowed := List.zipWith (fun a b => a * b) audioFrame (hann audioFrame.length)
  let fft := dft windowed
  (fft.take (fft.length / 2)).map Complex.abs

/-- `calculate_spectral_flatness` (lines 83-109): epsilon `1e-10` is added
to each magnitude, the geometric mean is `exp(mean(log magnitude))`, and the
ratio geometric/arithmetic mean is returned when the arithmetic mean is
positive, else `0.0`. -/
noncomputable def calculate_spectral_flatness (audioFrame : List ℝ) : ℝ :=
  let magnitude := (halfSpectrumMagnitudes audioFrame).map (fun m => m + 1e-10)
  let geometricMean := Real.exp (listMean (magnitude.map Real.log))
  let arithmeticMean := listMean magnitude
  if 0 < arithmeticMean then geometricMean / arithmeticMean else 0

/-! The full mutable state of an `AdvancedVAD` instance and the embedding of
`process_frame` (src/server.py lines 111-196). -/

/-- The whole per-connection mutable state: the hangover fields, the frame
counter, the three noise floors and the three feature histories. -/
structure VADState where
  hang : HangState
  frameCount : ℕ
  noiseFloorRms : ℝ
  noiseFloorZcr : ℝ
  noiseFloorFlatness : ℝ
  rmsHistory : List ℝ
  zcrHistory : List ℝ
  flatnessHistory : List ℝ

/-- State set by `__init__` (lines 52-67): counters zero, noise floors at
their initial values `0.0001`, `0.01`, `0.1`, histories empty. -/
noncomputable def initState : VADState :=
  ⟨initHang, 0, 0.0001, 0.01, 0.1, [], [], []⟩

/-- The fields of the result dict assembled in lines 176-194 that carry
engine data (the timestamp string and the human-readable reason string are
omitted). -/
structure VADResult where
  isSpeech : Bool
  confidence : ℝ
  speechVotes : ℕ
  frameCount : ℕ
  rmsEnergy : ℝ
  rmsNoiseFloor : ℝ
  zcr : ℝ
  zcrNoiseFloor : ℝ
  spectralFlatness : ℝ
  flatnessNoiseFloor : ℝ
  rmsDecision : Bool
  zcrDecision : Bool
  flatnessDecision : Bool

/-- Lines 120-129: append the three raw features to their histories and,
when the rms history has grown past `history_size`, pop the head of all
three (`list.pop(0)` is `List.tail`). -/
noncomputable def newHistories (s : VADState) (audioFrame : List ℝ) :
    List ℝ × List ℝ × List ℝ :=
  let rmsH := s.rmsHistory ++ [calculate_rms_energy audioFrame]
  let zcrH := s.zcrHistory ++ [calculate_zero_crossing_rate audioFrame]
  let flatH := s.flatnessHistory ++ [calculate_spectral_flatness audioFrame]
  if historySize < rmsH.length then (rmsH.tail, zcrH.tail, flatH.tail)
  else (rmsH, zcrH, flatH)

/-- Line 132: `smoothed_rms = np.mean(self.rms_history)` after the history
update. -/
noncomputable def smoothedRms (s : VADState) (audioFrame : List ℝ) : ℝ :=
  listMean (newHistories s audioFrame).1

/-- Line 133: the smoothed zero-crossing rate. -/
noncomputable def smoothedZcr (s : VADState) (audioFrame : List ℝ) : ℝ :=
  listMean (newHistories s audioFrame).2.1

/-- Line 134: the smoothed spectral flatness. -/
noncomputable def smoothedFlatness (s : VADState) (audioFrame : List ℝ) : ℝ :=
  listMean (newHistories s audioFrame).2.2

/-- `np.clip(x, lo, hi)`. -/
noncomputable def clip (x lo hi : ℝ) : ℝ := min hi (max lo x)

/-- Lines 136-146, rms floor: during true silence (`not is_voice_active and
hangover_counter == 0`) the floor moves to
`alpha*floor + (1-alpha)*smoothed` and is then kept at least `0.0001`;
otherwise it is untouched. -/
noncomputable def newFloorRms (s : VADState) (audioFrame : List ℝ) : ℝ :=
  if s.hang.isVoiceActive = false ∧ s.hang.hangoverCounter = 0 then
    max 0.0001
      (adaptationAlpha * s.noiseFloorRms + (1 - adaptationAlpha) * smoothedRms s audioFrame)
  else s.noiseFloorRms

/-- Lines 136-146, zcr floor: same update, clipped to `[0.01, 0.9]`. -/
noncomputable def newFloorZcr (s : VADState) (audioFrame : List ℝ) : ℝ :=
  if s.hang.isVoiceActive = false ∧ s.hang.hangoverCounter = 0 then
    clip (adaptationAlpha * s.noiseFloorZcr + (1 - adaptationAlpha) * smoothedZcr s audioFrame)
      0.01 0.9
  else s.noiseFloorZcr

/-- Lines 136-146, flatness floor: same update, clipped to `[0.01, 0.99]`. -/
noncomputable def newFloorFlatness (s : VADState) (audioFrame : List ℝ) : ℝ :=
  if s.hang.isVoiceActive = false ∧ s.hang.hangoverCounter = 0 then
    clip
      (adaptationAlpha * s.noiseFloorFlatness
        + (1 - adaptationAlpha) * smoothedFlatness s audioFrame)
      0.01 0.99
  else s.noiseFloorFlatness

/-- Line 149: `rms_decision = smoothed_rms > (self.noise_floor_rms * 2.0)`,
against the freshly updated floor. -/
noncomputable def rmsDecision (s : VADState) (audioFrame : List ℝ) : Bool :=
  decide (smoothedRms s audioFrame > newFloorRms s audioFrame * 2.0)

/-- Line 150: `zcr_decision = smoothed_zcr > (self.noise_floor_zcr * 1.5)`. -/
noncomputable def zcrDecision (s : VADState) (audioFrame : List ℝ) : Bool :=
  decide (smoothedZcr s audioFrame > newFloorZcr s audioFrame * 1.5)

/-- Line 151: `flatness_decision = smoothed_flatness <
(self.noise_floor_flatness * 0.8)`. -/
noncomputable def flatnessDecision (s : VADState) (audioFrame : List ℝ) : Bool :=
  decide (smoothedFlatness s audioFrame < newFloorFlatness s audioFrame * 0.8)

/-- Lines 154-155: `speech_votes = sum([rms_decision, zcr_decision,
flatness_decision])` (Python booleans sum as integers). -/
noncomputable def speechVotes (s : VADState) (audioFrame : List ℝ) : ℕ :=
  (([rmsDecision s audioFrame, zcrDecision s audioFrame, flatnessDecision s audioFrame]).map
    (fun b => if b then 1 else 0)).sum

/-- Line 158: `is_speech_detected = speech_votes >= 2`. -/
noncomputable def isSpeechDetected (s : VADState) (audioFrame : List ℝ) : Bool :=
  decide (speechVotes s audioFrame ≥ 2)

/-- `process_frame` (lines 111-196): increment the frame counter, update
histories, smooth, conditionally adapt the noise floors, vote, run the
hangover step, and assemble the result together with the mutated state. -/
noncomputable def processFrame (s : VADState) (audioFrame : List ℝ) :
    VADResult × VADState :=
  let hists := newHistories s audioFrame
  let hang2 := hangoverStep s.hang (isSpeechDetected s audioFrame)
  (⟨hang2.isVoiceActive,
    (speechVotes s audioFrame : ℝ) / 3.0,
    speechVotes s audioFrame,
    s.frameCount + 1,
    smoothedRms s audioFrame, newFloorRms s audioFrame,
    smoothedZcr s audioFrame, newFloorZcr s audioFrame,
    smoothedFlatness s audioFrame, newFloorFlatness s audioFrame,
    rmsDecision s audioFrame, zcrDecision s audioFrame, flatnessDecision s audioFrame⟩,
   ⟨hang2, s.frameCount + 1,
    newFloorRms s audioFrame, newFloorZcr s audioFrame, newFloorFlatness s audioFrame,
    hists.1, hists.2.1, hists.2.2⟩)

/-- Process a stream of frames in order, keeping only the final state. -/
noncomputable def runEngine (s : VADState) (frames : List (List ℝ)) : VADState :=
  frames.foldl (fun st fr => (processFrame st fr).2) s

/-! Definitions transcribed from the specification's words, to be compared
with the source-derived definitions above. -/

/-- From the spec: `zcr = (Σ|sign(x_i) − sign(x_{i-1})|) / N` with
`sign(x) ∈ {−1,0,1}`, the sum running over consecutive sample pairs. -/
noncomputable def zcrFromSpec (x : List ℝ) : ℝ :=
  (∑ i in Finset.range (x.length - 1),
    |Real.sign (x.getD (i + 1) 0) - Real.sign (x.getD i 0)|) / x.length

/-- From the spec: Hann window, magnitudes of the first half of the DFT,
epsilon `1e-10` added, then geometric mean over arithmetic mean of the
magnitudes — the geometric mean here written as the n-th root of the
product — and `0` whenever the arithmetic mean is not positive. -/
noncomputable def flatnessFromSpec (audioFrame : List ℝ) : ℝ :=
  let magnitude := (halfSpectrumMagnitudes audioFrame).map (fun m => m + 1e-10)
  let geometricMean := magnitude.prod ^ (magnitude.length : ℝ)⁻¹
  let arithmeticMean := listMean magnitude
  if 0 < arithmeticMean then geometricMean / arithmeticMean else 0

/-- The clamp ranges of the three noise floors: `rms_floor ≥ 0.0001`,
`zcr_floor ∈ [0.01, 0.9]`, `flatness_floor ∈ [0.01, 0.99]`. -/
def floorsInRange (s : VADState) : Prop :=
  0.0001 ≤ s.noiseFloorRms
  ∧ 0.01 ≤ s.noiseFloorZcr ∧ s.noiseFloorZcr ≤ 0.9
  ∧ 0.01 ≤ s.noiseFloorFlatness ∧ s.noiseFloorFlatness ≤ 0.99

/-! Helper lemmas. -/

theorem runEngine_frameCount : ∀ (frames : List (List ℝ)) (s : VADState),
    (runEngine s frames).frameCount = s.frameCount + frames.length
  | [], s => by simp [runEngine]
  | f :: fs, s => by
      have ih := runEngine_frameCount fs (processFrame s f).2
      simp only [runEngine, List.foldl_cons] at ih ⊢
      rw [ih]
      show s.frameCount + 1 + fs.length = _
      simp [List.length_cons]
      omega

/-! Claim theorems. -/

/-- Claim C1.  The spec requires malformed frames (empty, or with
non-finite samples) to fail with `InvalidFrameError` and to leave
`EngineState` untouched.  The code has no validation path at all:
`process_frame` increments `frame_count` before anything else, so even the
empty frame — malformed per the spec — mutates `EngineState` and yields an
ordinary result record; no `InvalidFrameError` exists in src/server.py. -/
theorem processFrame_rejects_no_frame (s : VADState) :
    (processFrame s []).2.frameCount = s.frameCount + 1
    ∧ (processFrame s []).1.frameCount = s.frameCount + 1 :=
  ⟨rfl, rfl⟩

/-- Claim C9.  `frame_count` starts at `0`, and every processed frame —
there are no unsuccessful ones — reports and stores exactly the previous
value plus one, so over any run the counter equals the number of frames
processed: it never decreases, skips, or resets. -/
theorem frameCount_strictly_increasing :
    initState.frameCount = 0
  ∧ (∀ (s : VADState) (f : List ℝ),
      (processFrame s f).1.frameCount = s.frameCount + 1
      ∧ (processFrame s f).2.frameCount = s.frameCount + 1)
  ∧ (∀ frames : List (List ℝ), (runEngine initState frames).frameCount = frames.length) := by
  refine ⟨rfl, fun s f => ⟨rfl, rfl⟩, fun frames => ?_⟩
  rw [runEngine_frameCount]
  show initState.frameCount + frames.length = frames.length
  simp [initState]

/-- Claim C6.  On every processed frame the three sub-decisions compare the
reported smoothed features against the reported floors with multipliers
`2.0`, `1.5`, `0.8`; `speech_votes` counts the true sub-decisions; speech is
detected exactly when at least two vote; and the reported confidence is
`speech_votes / 3.0`. -/
theorem decision_engine_majority_vote (s : VADState) (f : List ℝ) :
    ((processFrame s f).1.rmsDecision = true ↔
      (processFrame s f).1.rmsEnergy > (processFrame s f).1.rmsNoiseFloor * 2.0)
  ∧ ((processFrame s f).1.zcrDecision = true ↔
      (processFrame s f).1.zcr > (processFrame s f).1.zcrNoiseFloor * 1.5)
  ∧ ((processFrame s f).1.flatnessDecision = true ↔
      (processFrame s f).1.spectralFlatness < (processFrame s f).1.flatnessNoiseFloor * 0.8)
  ∧ (processFrame s f).1.speechVotes
      = ((if (processFrame s f).1.rmsDecision then 1 else 0)
        + (if (processFrame s f).1.zcrDecision then 1 else 0)
        + (if (processFrame s f).1.flatnessDecision then 1 else 0))
  ∧ (isSpeechDetected s f = true ↔ 2 ≤ (processFrame s f).1.speechVotes)
  ∧ (processFrame s f).1.confidence = ((processFrame s f).1.speechVotes : ℝ) / 3.0 := by
  have ea : (processFrame s f).1.rmsEnergy = smoothedRms s f := rfl
  have eb : (processFrame s f).1.rmsNoiseFloor = newFloorRms s f := rfl
  have ec : (processFrame s f).1.zcr = smoothedZcr s f := rfl
  have ed : (processFrame s f).1.zcrNoiseFloor = newFloorZcr s f := rfl
  have ee : (processFrame s f).1.spectralFlatness = smoothedFlatness s f := rfl
  have ef : (processFrame s f).1.flatnessNoiseFloor = newFloorFlatness s f := rfl
  have eg : (processFrame s f).1.rmsDecision = rmsDecision s f := rfl
  have eh : (processFrame s f).1.zcrDecision = zcrDecision s f := rfl
  have ei : (processFrame s f).1.flatnessDecision = flatnessDecision s f := rfl
  have ej : (processFrame s f).1.speechVotes = speechVotes s f := rfl
  simp only [ea, eb, ec, ed, ee, ef, eg, eh, ei, ej]
  refine ⟨?_, ?_, ?_, ?_, ?_, rfl⟩
  · simp [rmsDecision]
  · simp [zcrDecision]
  · simp [flatnessDecision]
  · simp [speechVotes]
    omega
  · simp [isSpeechDetected]

/-- Claim C3.  From a state with `is_voice_active == false`,
`hangover_counter == 0` and `speech_frame_count == 0`, three consecutive
frames each drawing at least two speech votes make `is_speech` true exactly
on the third frame and false on the two before it (`min_speech_frames` is
`3`). -/
theorem activation_on_min_speech_frames (v₁ v₂ v₃ : ℕ) (s : HangState)
    (h₁ : 2 ≤ v₁) (h₂ : 2 ≤ v₂) (h₃ : 2 ≤ v₃)
    (ha : s.isVoiceActive = false) (hb : s.hangoverCounter = 0)
    (hc : s.speechFrameCount = 0) :
    minSpeechFrames = 3
    ∧ hangOutputs s [speechDetected v₁, speechDetected v₂, speechDetected v₃]
        = [false, false, true] := by
  have hs : s = ⟨false, 0, 0⟩ := by
    cases s
    simp_all
  have e₁ : speechDetected v₁ = true := decide_eq_true h₁
  have e₂ : speechDetected v₂ = true := decide_eq_true h₂
  have e₃ : speechDetected v₃ = true := decide_eq_true h₃
  rw [hs, e₁, e₂, e₃]
  exact ⟨rfl, by decide⟩

theorem activation_on_min_speech_frames_witness :
    2 ≤ 2
    ∧ (⟨false, 0, 0⟩ : HangState).isVoiceActive = false
    ∧ (⟨false, 0, 0⟩ : HangState).hangoverCounter = 0
    ∧ (⟨false, 0, 0⟩ : HangState).speechFrameCount = 0
    ∧ (minSpeechFrames = 3
       ∧ hangOutputs ⟨false, 0, 0⟩ [speechDetected 2, speechDetected 2, speechDetected 2]
           = [false, false, true]) :=
  ⟨by decide, rfl, rfl, rfl,
    activation_on_min_speech_frames 2 2 2 ⟨false, 0, 0⟩ (by decide) (by decide) (by decide)
      rfl rfl rfl⟩

/-- Claim C2 counterexample.  From the initial state, three frames with
three votes each activate the engine on the third frame; feeding
`hangover_frames = 12` consecutive zero-vote frames then does NOT keep
`is_speech` true on all twelve of them — it is true on only the first
eleven and already false on the twelfth. -/
theorem hangover_window_counterexample :
    hangOutputs initHang [speechDetected 3, speechDetected 3, speechDetected 3]
      = [false, false, true]
    ∧ hangOutputs (runHang initHang [speechDetected 3, speechDetected 3, speechDetected 3])
        (List.replicate hangoverFrames (speechDetected 0))
      ≠ List.replicate hangoverFrames true
    ∧ hangOutputs (runHang initHang [speechDetected 3, speechDetected 3, speechDetected 3])
        (List.replicate hangoverFrames (speechDetected 0))
      = List.replicate (hangoverFrames - 1) true ++ [false] := by
  decide

theorem silent_window_outputs : ∀ (n : ℕ) (s : HangState),
    s.hangoverCounter = n →
    hangOutputs s (List.replicate (n + 1) false) = List.replicate n true ++ [false]
  | 0, s, h => by
      simp only [List.replicate_succ, List.replicate, hangOutputs, hangoverStep]
      simp [h]
  | n + 1, s, h => by
      have hstep : hangoverStep s false = ⟨true, n, 0⟩ := by
        simp only [hangoverStep]
        simp [h]
      have ih := silent_window_outputs n ⟨true, n, 0⟩ rfl
      rw [List.replicate_succ, hangOutputs, hstep, ih, List.replicate_succ]
      simp

/-- Claim C2 as amended.  After the frame on which `is_speech` first becomes
true the stored `hangover_counter` is `hangover_frames - 1 = 11` (the latch
to `12` and the decrement happen within the activating frame), so feeding
`hangover_frames` consecutive zero-vote frames keeps `is_speech == true` for
exactly `hangover_frames - 1` of them, with `is_speech == false` already on
the `hangover_frames`-th such frame. -/
theorem hangover_persistence_after_activation (s : HangState)
    (h : s.hangoverCounter = hangoverFrames - 1) :
    hangOutputs s (List.replicate hangoverFrames (speechDetected 0))
      = List.replicate (hangoverFrames - 1) true ++ [false] := by
  have h0 : speechDetected 0 = false := rfl
  have h11 : s.hangoverCounter = 11 := by
    rw [h]
    decide
  have e : hangoverFrames = 11 + 1 := by decide
  rw [h0, e]
  have e2 : 11 + 1 - 1 = 11 := by decide
  rw [e2]
  exact silent_window_outputs 11 s h11

theorem hangover_persistence_after_activation_witness :
    (⟨true, 11, 3⟩ : HangState).hangoverCounter = hangoverFrames - 1
    ∧ hangOutputs ⟨true, 11, 3⟩ (List.replicate hangoverFrames (speechDetected 0))
      = List.replicate (hangoverFrames - 1) true ++ [false] :=
  ⟨by decide, hangover_persistence_after_activation ⟨true, 11, 3⟩ (by decide)⟩

theorem hangoverStep_counter_le (s : HangState) (d : Bool)
    (h : s.hangoverCounter ≤ hangoverFrames) :
    (hangoverStep s d).hangoverCounter ≤ hangoverFrames - 1 := by
  simp only [hangoverStep]
  split_ifs with h1 h2 <;> simp_all [hangoverFrames, minSpeechFrames]

theorem runHang_counter_le : ∀ (votes : List Bool) (s : HangState),
    s.hangoverCounter ≤ hangoverFrames - 1 →
    (runHang s votes).hangoverCounter ≤ hangoverFrames - 1
  | [], s, h => h
  | v :: vs, s, h => by
      have hstep := hangoverStep_counter_le s v (by omega)
      have ih := runHang_counter_le vs (hangoverStep s v) hstep
      simpa [runHang] using ih

/-- Claim C10.  At construction and after every processed frame the stored
`hangover_counter` is at most `hangover_frames - 1`: the latch to
`hangover_frames` and the decrement happen within the same frame, so the
latch value is never observable.  Moreover the returned `is_speech` is true
exactly when the counter was positive immediately before the decrement
(i.e. after the latch of lines 161-164). -/
theorem hangover_counter_never_full :
    initHang.hangoverCounter ≤ hangoverFrames - 1
  ∧ (∀ votes : List Bool, (runHang initHang votes).hangoverCounter ≤ hangoverFrames - 1)
  ∧ (∀ (s : HangState) (d : Bool),
      (hangoverStep s d).isVoiceActive = decide (0 < latchedCounter s d)) := by
  refine ⟨by decide, fun votes => runHang_counter_le votes initHang (by decide), fun s d => ?_⟩
  simp only [hangoverStep, latchedCounter]
  split_ifs with h1 h2 <;> simp_all

/-- Claim C4.  The three noise floors are untouched on any frame that
starts with `is_voice_active == true` or `hangover_counter > 0`, and on a
true-silence frame each floor moves to `0.95*floor + 0.05*smoothed` (then
clamped). -/
theorem noise_floor_silence_gating (s : VADState) (f : List ℝ) :
    ((s.hang.isVoiceActive = true ∨ 0 < s.hang.hangoverCounter) →
        (processFrame s f).2.noiseFloorRms = s.noiseFloorRms
      ∧ (processFrame s f).2.noiseFloorZcr = s.noiseFloorZcr
      ∧ (processFrame s f).2.noiseFloorFlatness = s.noiseFloorFlatness)
  ∧ ((s.hang.isVoiceActive = false ∧ s.hang.hangoverCounter = 0) →
        (processFrame s f).2.noiseFloorRms
          = max 0.0001 (0.95 * s.noiseFloorRms + 0.05 * smoothedRms s f)
      ∧ (processFrame s f).2.noiseFloorZcr
          = clip (0.95 * s.noiseFloorZcr + 0.05 * smoothedZcr s f) 0.01 0.9
      ∧ (processFrame s f).2.noiseFloorFlatness
          = clip (0.95 * s.noiseFloorFlatness + 0.05 * smoothedFlatness s f) 0.01 0.99) := by
  have ea : (processFrame s f).2.noiseFloorRms = newFloorRms s f := rfl
  have eb : (processFrame s f).2.noiseFloorZcr = newFloorZcr s f := rfl
  have ec : (processFrame s f).2.noiseFloorFlatness = newFloorFlatness s f := rfl
  have halpha : (1 : ℝ) - adaptationAlpha = 0.05 := by
    norm_num [adaptationAlpha]
  have halpha2 : adaptationAlpha = (0.95 : ℝ) := by
    norm_num [adaptationAlpha]
  constructor
  · intro h
    have hcond : ¬(s.hang.isVoiceActive = false ∧ s.hang.hangoverCounter = 0) := by
      rcases h with h | h
      · simp [h]
      · rintro ⟨_, h2⟩
        omega
    rw [ea, eb, ec]
    refine ⟨?_, ?_, ?_⟩ <;> simp [newFloorRms, newFloorZcr, newFloorFlatness, hcond]
  · intro h
    rw [ea, eb, ec]
    refine ⟨?_, ?_, ?_⟩ <;>
      simp [newFloorRms, newFloorZcr, newFloorFlatness, h, halpha, halpha2] <;>
      norm_num

theorem noise_floor_silence_gating_witness :
    ((⟨⟨true, 5, 0⟩, 0, 1, 1, 1, [], [], []⟩ : VADState).hang.isVoiceActive = true
      ∨ 0 < (⟨⟨true, 5, 0⟩, 0, 1, 1, 1, [], [], []⟩ : VADState).hang.hangoverCounter)
    ∧ (processFrame ⟨⟨true, 5, 0⟩, 0, 1, 1, 1, [], [], []⟩ []).2.noiseFloorRms
        = (⟨⟨true, 5, 0⟩, 0, 1, 1, 1, [], [], []⟩ : VADState).noiseFloorRms :=
  ⟨Or.inl rfl, ((noise_floor_silence_gating ⟨⟨true, 5, 0⟩, 0, 1, 1, 1, [], [], []⟩ []).1
    (Or.inl rfl)).1⟩

theorem le_clip (x lo hi : ℝ) (h : lo ≤ hi) : lo ≤ clip x lo hi :=
  le_min h (le_max_left lo x)

theorem clip_le (x lo hi : ℝ) : clip x lo hi ≤ hi := min_le_left hi (max lo x)

theorem floorsInRange_step (s : VADState) (f : List ℝ) (h : floorsInRange s) :
    floorsInRange (processFrame s f).2 := by
  obtain ⟨h1, h2, h3, h4, h5⟩ := h
  have ea : (processFrame s f).2.noiseFloorRms = newFloorRms s f := rfl
  have eb : (processFrame s f).2.noiseFloorZcr = newFloorZcr s f := rfl
  have ec : (processFrame s f).2.noiseFloorFlatness = newFloorFlatness s f := rfl
  refine ⟨?_, ?_, ?_, ?_, ?_⟩
  · rw [ea]
    unfold newFloorRms
    split_ifs
    · exact le_max_left _ _
    · exact h1
  · rw [eb]
    unfold newFloorZcr
    split_ifs
    · exact le_clip _ _ _ (by norm_num)
    · exact h2
  · rw [eb]
    unfold newFloorZcr
    split_ifs
    · exact clip_le _ _ _
    · exact h3
  · rw [ec]
    unfold newFloorFlatness
    split_ifs
    · exact le_clip _ _ _ (by norm_num)
    · exact h4
  · rw [ec]
    unfold newFloorFlatness
    split_ifs
    · exact clip_le _ _ _
    · exact h5

theorem floorsInRange_run : ∀ (frames : List (List ℝ)) (s : VADState),
    floorsInRange s → floorsInRange (runEngine s frames)
  | [], _, h => h
  | f :: fs, s, h => by
      have ih := floorsInRange_run fs (processFrame s f).2 (floorsInRange_step s f h)
      simpa [runEngine] using ih

/-- Claim C5.  The noise floors respect their clamp ranges
(`rms_floor ≥ 0.0001`, `zcr_floor ∈ [0.01, 0.9]`,
`flatness_floor ∈ [0.01, 0.99]`) at construction, after any single frame
processed from any in-range state — whatever extreme values the smoothed
features take — and hence after every frame of every run. -/
theorem noise_floors_within_clamp_ranges :
    floorsInRange initState
  ∧ (∀ (s : VADState) (f : List ℝ), floorsInRange s → floorsInRange (processFrame s f).2)
  ∧ (∀ frames : List (List ℝ), floorsInRange (runEngine initState frames)) :=
  ⟨by norm_num [floorsInRange, initState], floorsInRange_step,
    fun frames => floorsInRange_run frames initState (by norm_num [floorsInRange, initState])⟩

theorem noise_floors_within_clamp_ranges_witness :
    floorsInRange initState ∧ floorsInRange (processFrame initState []).2 :=
  ⟨by norm_num [floorsInRange, initState],
    noise_floors_within_clamp_ranges.2.1 initState []
      (by norm_num [floorsInRange, initState])⟩

theorem getD_map_sign : ∀ (x : List ℝ) (i : ℕ),
    (x.map Real.sign).getD i 0 = Real.sign (x.getD i 0)
  | [], i => by simp [Real.sign_zero]
  | a :: t, 0 => by simp
  | a :: t, i + 1 => by
      simp only [List.map_cons, List.getD_cons_succ]
      exact getD_map_sign t i

theorem zipWith_absDiff_sum : ∀ (l : List ℝ),
    (List.zipWith (fun a b => |b - a|) l l.tail).sum
      = ∑ i in Finset.range (l.length - 1), |l.getD (i + 1) 0 - l.getD i 0|
  | [] => by simp
  | [a] => by simp
  | a :: b :: t => by
      have ih := zipWith_absDiff_sum (b :: t)
      simp only [List.tail_cons] at ih
      rw [show (a :: b :: t).tail = b :: t from rfl, List.zipWith_cons_cons, List.sum_cons, ih]
      have hlen : (a :: b :: t).length - 1 = ((b :: t).length - 1) + 1 := by simp
      rw [hlen, Finset.sum_range_succ']
      simp only [List.getD_cons_succ, List.getD_cons_zero, List.length_cons,
        Nat.add_sub_cancel]
      ring

/-- Claim C7.  For every non-empty frame the zero-crossing rate of the code
equals the spec's formula `(Σ|sign(x_i) − sign(x_{i-1})|)/N` with
`sign ∈ {−1,0,1}`; concretely, a full `+1 → −1` flip contributes `2` to the
numerator (frame `[1, -1]` has rate `2/2`) while a transition through zero
contributes `1` per step (frame `[1, 0]` has rate `1/2`), so the unusual
weighting is preserved exactly. -/
theorem zcr_matches_spec (x : List ℝ) (h : x ≠ []) :
    calculate_zero_crossing_rate x = zcrFromSpec x
    ∧ calculate_zero_crossing_rate [(1 : ℝ), -1] = 2 / 2
    ∧ calculate_zero_crossing_rate [(1 : ℝ), 0] = 1 / 2 := by
  have hneg : Real.sign (-1 : ℝ) = -1 := Real.sign_of_neg (by norm_num)
  have hpos : Real.sign (1 : ℝ) = 1 := Real.sign_of_pos (by norm_num)
  refine ⟨?_, ?_, ?_⟩
  · unfold calculate_zero_crossing_rate signDiffs zcrFromSpec
    rw [List.map_zipWith, zipWith_absDiff_sum (x.map Real.sign), List.length_map]
    congr 1
    refine Finset.sum_congr rfl fun i _ => ?_
    rw [getD_map_sign, getD_map_sign]
  · unfold calculate_zero_crossing_rate signDiffs
    norm_num [hneg, hpos]
  · unfold calculate_zero_crossing_rate signDiffs
    norm_num [hpos, Real.sign_zero]

theorem zcr_matches_spec_witness :
    ([(1 : ℝ), 0, -1] ≠ ([] : List ℝ))
    ∧ calculate_zero_crossing_rate [(1 : ℝ), 0, -1] = zcrFromSpec [(1 : ℝ), 0, -1] :=
  ⟨by simp, (zcr_matches_spec [(1 : ℝ), 0, -1] (by simp)).1⟩

theorem log_list_prod : ∀ (l : List ℝ), (∀ y ∈ l, 0 < y) →
    Real.log l.prod = (l.map Real.log).sum
  | [], _ => by simp
  | a :: t, h => by
      have ha : 0 < a := h a (List.mem_cons_self a t)
      have ht : ∀ y ∈ t, 0 < y := fun y hy => h y (List.mem_cons_of_mem a hy)
      have htp : (0 : ℝ) < t.prod := List.prod_pos ht
      rw [List.prod_cons, Real.log_mul (ne_of_gt ha) (ne_of_gt htp), List.map_cons,
        List.sum_cons, log_list_prod t ht]

theorem exp_mean_log_eq_rpow (l : List ℝ) (h : ∀ y ∈ l, 0 < y) :
    Real.exp (listMean (l.map Real.log)) = l.prod ^ (l.length : ℝ)⁻¹ := by
  rcases eq_or_ne l [] with rfl | hne
  · simp [listMean, Real.one_rpow]
  · have hp : (0 : ℝ) < l.prod := List.prod_pos h
    rw [Real.rpow_def_of_pos hp, log_list_prod l h]
    unfold listMean
    rw [List.length_map, div_eq_mul_inv]

theorem epsilon_magnitudes_pos (f : List ℝ) :
    ∀ y ∈ (halfSpectrumMagnitudes f).map (fun m => m + 1e-10), 0 < y := by
  intro y hy
  rcases List.mem_map.mp hy with ⟨m, hm, rfl⟩
  have hm0 : 0 ≤ m := by
    unfold halfSpectrumMagnitudes at hm
    rcases List.mem_map.mp hm with ⟨z, _, rfl⟩
    exact Complex.abs.nonneg z
  have : (0 : ℝ) < 1e-10 := by norm_num
  linarith

/-- Claim C8.  For every frame, `calculate_spectral_flatness` computes
exactly the spec's pipeline: Hann-window the frame, take the magnitudes of
the first half of its DFT, add epsilon `1e-10` to each, and return
geometric mean (the n-th root of the product) over arithmetic mean, with
flatness `0.0` whenever the arithmetic mean is not positive. -/
theorem flatness_matches_spec (f : List ℝ) :
    calculate_spectral_flatness f = flatnessFromSpec f := by
  simp only [calculate_spectral_flatness, flatnessFromSpec]
  split_ifs with hpos
  · rw [exp_mean_log_eq_rpow _ (epsilon_magnitudes_pos f)]
  · rfl

end VAD
